import Mathlib

/-!
Shallow embedding of the snapshot/reporting pipeline of
`btb_manager_telegram/report.py` (price normalization, valuation, snapshot
store, chart series construction).

Modelling conventions:
* Python floats are modelled as rationals (`ℚ`); the claims under study are
  about exact arithmetic identities, not rounding.
* A Python dict is modelled as an association list `List (String × ℚ)`.
  A dict built by successive assignments `d[k] = v` is modelled by consing
  `(k, v)` at the front, so `List.lookup` (first match wins) returns the most
  recent assignment.  A dict built by a comprehension over a list of records
  (later records overwrite earlier ones) is modelled by `List.lookup` on the
  reversed list (`rawLookup`).
* `set(backup_coins + all_symbols)` iterates in an unspecified order in
  Python; we fix the order of first occurrences (`dedupF`), which keeps the
  backup coins in front exactly as they are in the Python literal.
* A raised exception (`KeyError` on a missing dict key, `IndexError` on
  `Y[0]` of an empty array) is modelled by `Option`/`none`; code that lets an
  exception propagate returns `none`.
-/

namespace BTBReport

abbrev Dict := List (String × ℚ)

/-- Lookup in a Python dict that was built by a comprehension over a list of
records: later records overwrite earlier ones, hence lookup on the reverse. -/
def rawLookup (raw : Dict) (s : String) : Option ℚ :=
  raw.reverse.lookup s

/-- `backup_coins = ["BTC", "ETH", "BNB"]` from `build_ticker`. -/
def backup_coins : List String := ["BTC", "ETH", "BNB"]

/-- The ordered stable-quote priority list `("USD", "USDT", "BUSD", "USDC", "DAI")`. -/
def stable_coins : List String := ["USD", "USDT", "BUSD", "USDC", "DAI"]

/-- The seed `tickers = {"USDT": 1, "USD": 1}`. -/
def initTickers : Dict := [("USDT", 1), ("USD", 1)]

/-- Price found by the first pass for one symbol: the raw price of the pair
against the first stable quote currency for which the pair exists (the inner
`for stable in (...)` loop with its `break`). -/
def firstStable (raw : Dict) (symbol : String) : Option ℚ :=
  stable_coins.findSome? (fun st => rawLookup raw (symbol ++ st))

/-- First backup coin whose pair with `symbol` exists in the raw tickers (the
inner `for b_coin in backup_coins` loop with its `break`). -/
def backupFind (raw : Dict) (symbol : String) : Option String :=
  backup_coins.find? (fun b => (rawLookup raw (symbol ++ b)).isSome)

/-- First pass of `build_ticker`: direct stable pairs.  Returns the updated
tickers dict and the `failed_coins` list (in iteration order). -/
def pass1 (raw : Dict) : List String → Dict → List String → Dict × List String
  | [], tickers, failed => (tickers, failed)
  | s :: rest, tickers, failed =>
    match firstStable raw s with
    | some p => pass1 raw rest ((s, p) :: tickers) failed
    | none => pass1 raw rest tickers (failed ++ [s])

/-- Second pass of `build_ticker`: for each failed coin, the first backup coin
with an existing raw pair is used and its price in `tickers` is looked up —
a missing key there is a `KeyError` (modelled as `none`); a coin with no
backup pair is skipped. -/
def pass2 (raw : Dict) : List String → Dict → Option Dict
  | [], tickers => some tickers
  | s :: rest, tickers =>
    match backupFind raw s with
    | none => pass2 raw rest tickers
    | some b =>
      match rawLookup raw (s ++ b), tickers.lookup b with
      | some p, some pb => pass2 raw rest ((s, p * pb) :: tickers)
      | _, _ => none

/-- Deduplication keeping first occurrences; models the iteration over
`set(backup_coins + all_symbols)` with a fixed order. -/
def dedupF : List String → List String
  | [] => []
  | a :: l => a :: (dedupF l).filter (fun x => x != a)

/-- `build_ticker(all_symbols, tickers_raw)`: seed, direct stable pass, backup
pass.  `none` models an uncaught `KeyError` in the second pass. -/
def build_ticker (all_symbols : List String) (tickers_raw : Dict) : Option Dict :=
  let pr := pass1 tickers_raw (dedupF (backup_coins ++ all_symbols)) initTickers []
  pass2 tickers_raw pr.2 pr.1

/-- One record of the account-balances endpoint (asset, free qty, locked qty). -/
structure RawBalance where
  asset : String
  free : ℚ
  locked : ℚ
deriving DecidableEq

/-- `symbol.startswith("LD")` — the "earn/savings"-prefix exclusion of
`get_report`, written on the character list of the string. -/
def startsWithLD (s : String) : Bool :=
  s.data.take 2 == ['L', 'D']

/-- The report dict built by `get_report` (before the timestamp is attached
by `save_report`). -/
structure Report where
  total_usdt : ℚ
  balances : Dict
  tickers : Dict
deriving DecidableEq

/-- The valuation loop of `get_report` (lines 87–92): iterate the account
symbols; a symbol missing from `tickers` is skipped, otherwise add
`balances[symbol] * tickers[symbol]`. -/
def total_usdt_py (account_symbols : List String) (balances tickers : Dict) : ℚ :=
  account_symbols.foldl
    (fun acc s =>
      match tickers.lookup s with
      | none => acc
      | some p => acc + ((balances.reverse.lookup s).getD 0) * p) 0

/-- Lines 75–83 of `get_report`: when the configured currency is not in
`("USD", "EUR")`, consult the openexchangerates response and store
`1 / rate` under the currency; a failed request or missing rate raises
(modelled as `none`) and is not caught. -/
def attach_currency (currency : String) (oer_usd_rate : Option ℚ)
    (tickers0 : Dict) : Option Dict :=
  if currency = "USD" ∨ currency = "EUR" then some tickers0
  else
    match oer_usd_rate with
    | none => none
    | some rate => some ((currency, 1 / rate) :: tickers0)

/-- `get_report`, parametrised over the external world: configured currency,
configured coin list, the account-balances response, the all-pairs ticker
response, and the openexchangerates response for the configured currency
(`none` = request failure or missing rate, which the code does not catch). -/
def get_report (currency : String) (coin_list : List String)
    (account_balances : List RawBalance) (tickers_raw : Dict)
    (oer_usd_rate : Option ℚ) : Option Report :=
  let kept := account_balances.filter
    (fun b => !(startsWithLD b.asset) && decide (b.free + b.locked ≠ 0))
  let account_symbols := kept.map (fun b => b.asset)
  let balances := kept.map (fun b => (b.asset, b.free + b.locked))
  let all_symbols0 := dedupF (coin_list ++ account_symbols)
  let all_symbols := if currency = "EUR" then all_symbols0 ++ ["EUR"] else all_symbols0
  match build_ticker all_symbols tickers_raw with
  | none => none
  | some tickers0 =>
    match attach_currency currency oer_usd_rate tickers0 with
    | none => none
    | some tickers =>
      some { total_usdt := total_usdt_py account_symbols balances tickers,
             balances := balances, tickers := tickers }

/-- The sum `Σ balance[s] * price[s]` over exactly the symbols present in both
maps, written as the specification states it (a filterMap over the balance
entries keeping those whose symbol has a price). -/
def intersect_sum (balances tickers : Dict) : ℚ :=
  (balances.filterMap
    (fun pr => (tickers.lookup pr.1).map (fun p => pr.2 * p))).sum

/-- A stored snapshot: the report dict after `save_report` stamped it with
`report["time"]`. -/
structure Snapshot where
  report : Report
  time : ℕ
deriving DecidableEq

/-- `get_previous_reports()`: full read of `data/crypto.npy`, empty history if
the file does not exist (`none` = no file). -/
def get_previous_reports : Option (List Snapshot) → List Snapshot
  | none => []
  | some l => l

/-- `save_report(report, old_reports)`: stamp the report with the current
epoch time, append, rewrite the whole store, return the updated history. -/
def save_report (now : ℕ) (r : Report) (old : List Snapshot) : List Snapshot :=
  old ++ [{ report := r, time := now }]

/-- The store file contents after `save_report` (full-file overwrite). -/
def save_report_store (now : ℕ) (r : Report) (old : List Snapshot) :
    Option (List Snapshot) :=
  some (save_report now r old)

/-- `min_timestamp` of `graph_report` (lines 162–164). -/
def min_timestamp (now days : ℕ) : ℤ :=
  if days = 0 then 0 else (now : ℤ) - days * 24 * 60 * 60

/-- The age filter of `graph_report` line 170: a report is kept iff
`not (report["time"] < min_timestamp)`. -/
def age_keep (now days t : ℕ) : Bool :=
  decide (min_timestamp now days ≤ (t : ℤ))

/-- The per-point value of `graph_report` (lines 182–195): `total/ticker` for
an `amount` plot, `ticker/ref_ticker` for a `price` plot (dropping the point
when the reference price is missing or zero), `none` for any other kind. -/
def point_y (graph_type ref_currency : String) (rep : Snapshot) (ticker : ℚ) :
    Option ℚ :=
  if graph_type = "amount" then some (rep.report.total_usdt / ticker)
  else if graph_type = "price" then
    if ref_currency = "USD" ∨ ref_currency = "USDT" then some (ticker / 1)
    else
      match rep.report.tickers.lookup ref_currency with
      | none => none
      | some rt => if rt = 0 then none else some (ticker / rt)
  else none

/-- The contribution of one stored report to one symbol's series
(lines 169–199): dropped when too old, when the symbol has no price, or when
that price is zero; otherwise `point_y`. -/
def point_of (symbol graph_type ref_currency : String) (now days : ℕ)
    (rep : Snapshot) : Option ℚ :=
  if age_keep now days rep.time then
    match rep.report.tickers.lookup symbol with
    | none => none
    | some ticker =>
      if ticker = 0 then none else point_y graph_type ref_currency rep ticker
  else none

/-- One symbol's Y series before the relative transform. -/
def seriesY (reports : List Snapshot) (symbol graph_type ref_currency : String)
    (now days : ℕ) : List ℚ :=
  reports.filterMap (point_of symbol graph_type ref_currency now days)

/-- The relative transform `Y = (Y / Y[0] - 1) * 100` (line 203); `Y[0]` on an
empty array is an `IndexError`, modelled as `none`. -/
def relative_transform (Y : List ℚ) : Option (List ℚ) :=
  match Y with
  | [] => none
  | v0 :: _ => some (Y.map (fun v => (v / v0 - 1) * 100))

/-- A snapshot timestamped 8 days before the example "now" of `10 * 86400`. -/
def repOld8d : Snapshot :=
  { report := { total_usdt := 100, balances := [("BTC", 20)], tickers := [("BTC", 5)] },
    time := 2 * 86400 }

/-- The same snapshot contents timestamped 1 day before `10 * 86400`. -/
def repNew1d : Snapshot :=
  { report := { total_usdt := 100, balances := [("BTC", 20)], tickers := [("BTC", 5)] },
    time := 9 * 86400 }

/-- A one-element snapshot history that has a BTC price but no ETH price. -/
def exampleReports : List Snapshot :=
  [{ report := { total_usdt := 10, balances := [("BTC", 1)], tickers := [("BTC", 20000)] },
     time := 100 }]

/-- `graph_report` reduced to its data content: per symbol, the (possibly
relative) series that gets plotted, plus the total count of plotted points
(`nb_plot`).  `none` models an uncaught exception while building a series. -/
def graph_report (reports : List Snapshot) : List String → Bool → ℕ →
    String → String → ℕ → Option (List (String × List ℚ) × ℕ)
  | [], _, _, _, _, _ => some ([], 0)
  | s :: rest, relative, days, graph_type, ref_currency, now =>
    let Y := seriesY reports s graph_type ref_currency now days
    match (if relative then relative_transform Y else some Y) with
    | none => none
    | some Z =>
      match graph_report reports rest relative days graph_type ref_currency now with
      | none => none
      | some pr => some ((s, Z) :: pr.1, pr.2 + Y.length)

/-! ### Generic association-list lemmas -/

theorem lookup_cons_self {k : String} {v : ℚ} {t : Dict} :
    List.lookup k ((k, v) :: t) = some v := by
  simp [List.lookup]

theorem lookup_cons_ne {k s : String} {v : ℚ} {t : Dict} (h : k ≠ s) :
    List.lookup k ((s, v) :: t) = List.lookup k t := by
  simp [List.lookup, beq_eq_false_iff_ne.mpr h]

/-! ### `dedupF` lemmas -/

theorem mem_dedupF (x : String) : ∀ (l : List String), x ∈ dedupF l ↔ x ∈ l
  | [] => by simp [dedupF]
  | a :: l => by
    simp only [dedupF, List.mem_cons, List.mem_filter, mem_dedupF x l, bne_iff_ne]
    by_cases h : x = a
    · simp [h]
    · simp [h]

theorem nodup_dedupF : ∀ (l : List String), (dedupF l).Nodup
  | [] => by simp [dedupF]
  | a :: l => by
    simp only [dedupF]
    rw [List.nodup_cons]
    constructor
    · intro h
      rcases List.mem_filter.mp h with ⟨-, hb⟩
      exact absurd rfl (bne_iff_ne.mp hb)
    · exact (nodup_dedupF l).filter _

/-! ### First-pass (direct stable pairs) characterization -/

theorem pass1_fst_preserve (raw : Dict) :
    ∀ (syms : List String) (t : Dict) (f : List String) (k : String), k ∉ syms →
      List.lookup k (pass1 raw syms t f).1 = List.lookup k t := by
  intro syms
  induction syms with
  | nil => intro t f k _; rfl
  | cons s rest ih =>
    intro t f k hk
    have hks : k ≠ s := fun h => hk (h ▸ List.mem_cons_self s rest)
    have hkr : k ∉ rest := fun h => hk (List.mem_cons_of_mem _ h)
    cases h : firstStable raw s with
    | some p =>
      rw [show pass1 raw (s :: rest) t f = pass1 raw rest ((s, p) :: t) f from by
        simp [pass1, h]]
      rw [ih ((s, p) :: t) f k hkr, lookup_cons_ne hks]
    | none =>
      rw [show pass1 raw (s :: rest) t f = pass1 raw rest t (f ++ [s]) from by
        simp [pass1, h]]
      exact ih t (f ++ [s]) k hkr

theorem pass1_lookup_none (raw : Dict) {S : String} (hS : firstStable raw S = none) :
    ∀ (syms : List String) (t : Dict) (f : List String),
      List.lookup S (pass1 raw syms t f).1 = List.lookup S t := by
  intro syms
  induction syms with
  | nil => intro t f; rfl
  | cons s rest ih =>
    intro t f
    cases h : firstStable raw s with
    | some p =>
      have hsS : S ≠ s := fun he => by rw [he, h] at hS; exact Option.noConfusion hS
      rw [show pass1 raw (s :: rest) t f = pass1 raw rest ((s, p) :: t) f from by
        simp [pass1, h]]
      rw [ih ((s, p) :: t) f, lookup_cons_ne hsS]
    | none =>
      rw [show pass1 raw (s :: rest) t f = pass1 raw rest t (f ++ [s]) from by
        simp [pass1, h]]
      exact ih t (f ++ [s])

theorem pass1_lookup_some (raw : Dict) {S : String} {p : ℚ}
    (hS : firstStable raw S = some p) :
    ∀ (syms : List String), syms.Nodup → S ∈ syms → ∀ (t : Dict) (f : List String),
      List.lookup S (pass1 raw syms t f).1 = some p := by
  intro syms
  induction syms with
  | nil => intro _ hmem; exact absurd hmem (List.not_mem_nil S)
  | cons s rest ih =>
    intro hnd hmem t f
    rcases List.nodup_cons.mp hnd with ⟨hs_not, hnd_rest⟩
    rcases List.mem_cons.mp hmem with he | hmem_rest
    · subst he
      rw [show pass1 raw (S :: rest) t f = pass1 raw rest ((S, p) :: t) f from by
        simp [pass1, hS]]
      rw [pass1_fst_preserve raw rest ((S, p) :: t) f S hs_not, lookup_cons_self]
    · cases h : firstStable raw s with
      | some q =>
        rw [show pass1 raw (s :: rest) t f = pass1 raw rest ((s, q) :: t) f from by
          simp [pass1, h]]
        exact ih hnd_rest hmem_rest ((s, q) :: t) f
      | none =>
        rw [show pass1 raw (s :: rest) t f = pass1 raw rest t (f ++ [s]) from by
          simp [pass1, h]]
        exact ih hnd_rest hmem_rest t (f ++ [s])

theorem pass1_snd (raw : Dict) :
    ∀ (syms : List String) (t : Dict) (f : List String),
      (pass1 raw syms t f).2 =
        f ++ syms.filter (fun s => (firstStable raw s).isNone) := by
  intro syms
  induction syms with
  | nil => intro t f; simp [pass1]
  | cons s rest ih =>
    intro t f
    cases h : firstStable raw s with
    | some p =>
      rw [show pass1 raw (s :: rest) t f = pass1 raw rest ((s, p) :: t) f from by
        simp [pass1, h]]
      rw [ih ((s, p) :: t) f]
      simp [List.filter_cons, h]
    | none =>
      rw [show pass1 raw (s :: rest) t f = pass1 raw rest t (f ++ [s]) from by
        simp [pass1, h]]
      rw [ih t (f ++ [s])]
      simp [List.filter_cons, h]

/-! ### Second-pass (backup assets) characterization -/

theorem pass2_preserve (raw : Dict) :
    ∀ (failed : List String) (t out : Dict), pass2 raw failed t = some out →
      ∀ k, k ∉ failed → List.lookup k out = List.lookup k t := by
  intro failed
  induction failed with
  | nil =>
    intro t out h k _
    simp only [pass2, Option.some.injEq] at h
    rw [← h]
  | cons s rest ih =>
    intro t out h k hk
    have hks : k ≠ s := fun he => hk (he ▸ List.mem_cons_self s rest)
    have hkr : k ∉ rest := fun he => hk (List.mem_cons_of_mem _ he)
    cases hb : backupFind raw s with
    | none =>
      rw [show pass2 raw (s :: rest) t = pass2 raw rest t from by simp [pass2, hb]] at h
      exact ih t out h k hkr
    | some b =>
      cases hr : rawLookup raw (s ++ b) with
      | none => simp [pass2, hb, hr] at h
      | some p =>
        cases hl : List.lookup b t with
        | none => simp [pass2, hb, hr, hl] at h
        | some pb =>
          rw [show pass2 raw (s :: rest) t = pass2 raw rest ((s, p * pb) :: t) from by
            simp [pass2, hb, hr, hl]] at h
          rw [ih ((s, p * pb) :: t) out h k hkr, lookup_cons_ne hks]

theorem pass2_lookup_none (raw : Dict) {S : String} (hS : backupFind raw S = none) :
    ∀ (failed : List String) (t out : Dict), pass2 raw failed t = some out →
      List.lookup S out = List.lookup S t := by
  intro failed
  induction failed with
  | nil =>
    intro t out h
    simp only [pass2, Option.some.injEq] at h
    rw [← h]
  | cons s rest ih =>
    intro t out h
    cases hb : backupFind raw s with
    | none =>
      rw [show pass2 raw (s :: rest) t = pass2 raw rest t from by simp [pass2, hb]] at h
      exact ih t out h
    | some b =>
      have hsS : S ≠ s := fun he => by rw [he, hb] at hS; exact Option.noConfusion hS
      cases hr : rawLookup raw (s ++ b) with
      | none => simp [pass2, hb, hr] at h
      | some p =>
        cases hl : List.lookup b t with
        | none => simp [pass2, hb, hr, hl] at h
        | some pb =>
          rw [show pass2 raw (s :: rest) t = pass2 raw rest ((s, p * pb) :: t) from by
            simp [pass2, hb, hr, hl]] at h
          rw [ih ((s, p * pb) :: t) out h, lookup_cons_ne hsS]

theorem pass2_main (raw : Dict) :
    ∀ (failed : List String) (t out : Dict), failed.Nodup →
      (∀ b ∈ backup_coins, b ∈ failed → List.lookup b t = none) →
      pass2 raw failed t = some out →
      ∀ S ∈ failed, ∀ B, backupFind raw S = some B →
        ∃ p pb, rawLookup raw (S ++ B) = some p ∧
          List.lookup B out = some pb ∧ List.lookup S out = some (p * pb) := by
  intro failed
  induction failed with
  | nil => intro t out _ _ _ S hmem; exact absurd hmem (List.not_mem_nil S)
  | cons s rest ih =>
    intro t out hnd hinv h S hmem B hB
    rcases List.nodup_cons.mp hnd with ⟨hs_not, hnd_rest⟩
    cases hb : backupFind raw s with
    | none =>
      rw [show pass2 raw (s :: rest) t = pass2 raw rest t from by simp [pass2, hb]] at h
      rcases List.mem_cons.mp hmem with he | hmem_rest
      · subst he; rw [hB] at hb; exact Option.noConfusion hb
      · exact ih t out hnd_rest
          (fun b hbb hbf => hinv b hbb (List.mem_cons_of_mem _ hbf))
          h S hmem_rest B hB
    | some b =>
      cases hr : rawLookup raw (s ++ b) with
      | none => simp [pass2, hb, hr] at h
      | some p =>
        cases hl : List.lookup b t with
        | none => simp [pass2, hb, hr, hl] at h
        | some pb =>
          rw [show pass2 raw (s :: rest) t = pass2 raw rest ((s, p * pb) :: t) from by
            simp [pass2, hb, hr, hl]] at h
          have hb_backup : b ∈ backup_coins := List.mem_of_find?_eq_some hb
          have hb_not_cons : b ∉ s :: rest := fun hbc => by
            rw [hinv b hb_backup hbc] at hl; exact Option.noConfusion hl
          have hbs : b ≠ s := fun he => hb_not_cons (he ▸ List.mem_cons_self s rest)
          have hb_not_rest : b ∉ rest := fun he => hb_not_cons (List.mem_cons_of_mem _ he)
          have hinv2 : ∀ b' ∈ backup_coins, b' ∈ rest →
              List.lookup b' ((s, p * pb) :: t) = none := by
            intro b' hbb hbf
            have hb's : b' ≠ s := fun he => hs_not (he ▸ hbf)
            rw [lookup_cons_ne hb's]
            exact hinv b' hbb (List.mem_cons_of_mem _ hbf)
          rcases List.mem_cons.mp hmem with he | hmem_rest
          · subst he
            have hBb : B = b := by rw [hB] at hb; exact Option.some.inj hb
            subst hBb
            refine ⟨p, pb, hr, ?_, ?_⟩
            · rw [pass2_preserve raw rest ((S, p * pb) :: t) out h B hb_not_rest,
                lookup_cons_ne hbs]
              exact hl
            · rw [pass2_preserve raw rest ((S, p * pb) :: t) out h S hs_not,
                lookup_cons_self]
          · exact ih ((s, p * pb) :: t) out hnd_rest hinv2 h S hmem_rest B hB

/-! ### Claim theorems about the price normalizer -/

/-- C3: for every raw ticker set and every symbol of interest `S` (a requested
symbol or a backup coin) that has a direct trading pair against at least one
stable quote currency, the normalized price of `S` equals exactly the raw
price recorded for the first stable currency, in the fixed priority order
USD, USDT, BUSD, USDC, DAI, whose pair exists (`firstStable` is literally the
first-match search, so no later stable currency is consulted). -/
theorem build_ticker_direct_stable (all_symbols : List String) (raw : Dict)
    (S : String) (p : ℚ) (out : Dict)
    (hmem : S ∈ backup_coins ++ all_symbols)
    (hst : firstStable raw S = some p)
    (hout : build_ticker all_symbols raw = some out) :
    List.lookup S out = some p := by
  have hout' : pass2 raw (pass1 raw (dedupF (backup_coins ++ all_symbols)) initTickers []).2
      (pass1 raw (dedupF (backup_coins ++ all_symbols)) initTickers []).1 = some out := hout
  have hnd := nodup_dedupF (backup_coins ++ all_symbols)
  have hmem2 : S ∈ dedupF (backup_coins ++ all_symbols) := (mem_dedupF S _).mpr hmem
  have h1 : List.lookup S
      (pass1 raw (dedupF (backup_coins ++ all_symbols)) initTickers []).1 = some p :=
    pass1_lookup_some raw hst _ hnd hmem2 initTickers []
  have hfail : S ∉ (pass1 raw (dedupF (backup_coins ++ all_symbols)) initTickers []).2 := by
    rw [pass1_snd]
    simp [List.mem_filter, hst]
  rw [pass2_preserve raw _ _ out hout' S hfail, h1]

/-- Witness for C3: in the spec's running example the raw set `{BTCUSDT: 20000}`
resolves BTC at 20000 through its first matching stable pair. -/
theorem build_ticker_direct_stable_witness :
    List.lookup "BTC" [("BTC", (20000 : ℚ)), ("USDT", 1), ("USD", 1)] = some 20000 :=
  build_ticker_direct_stable ["BTC", "USDT"] [("BTCUSDT", 20000)] "BTC" 20000
    [("BTC", 20000), ("USDT", 1), ("USD", 1)] (by decide) (by decide) (by decide)

/-- C4: a symbol of interest `S` with no direct stable pair whose first
backup asset (in the fixed order BTC, ETH, BNB) with an existing raw pair is
`B` ends up, whenever the normalizer terminates without error, with the price
`raw(S ++ B) * tickers(B)` where `tickers(B)` is `B`'s own price in the
normalized output: a single multiplication against the backup's resolved
numeraire price. -/
theorem build_ticker_backup_pair (all_symbols : List String) (raw : Dict)
    (S B : String) (out : Dict)
    (hmem : S ∈ backup_coins ++ all_symbols)
    (hns : firstStable raw S = none)
    (hB : backupFind raw S = some B)
    (hout : build_ticker all_symbols raw = some out) :
    ∃ p pb, rawLookup raw (S ++ B) = some p ∧
      List.lookup B out = some pb ∧ List.lookup S out = some (p * pb) := by
  have hout' : pass2 raw (pass1 raw (dedupF (backup_coins ++ all_symbols)) initTickers []).2
      (pass1 raw (dedupF (backup_coins ++ all_symbols)) initTickers []).1 = some out := hout
  have hnd := nodup_dedupF (backup_coins ++ all_symbols)
  have hfailed : (pass1 raw (dedupF (backup_coins ++ all_symbols)) initTickers []).2 =
      (dedupF (backup_coins ++ all_symbols)).filter
        (fun s => (firstStable raw s).isNone) := by
    rw [pass1_snd]; simp
  rw [hfailed] at hout'
  have hSf : S ∈ (dedupF (backup_coins ++ all_symbols)).filter
      (fun s => (firstStable raw s).isNone) :=
    List.mem_filter.mpr ⟨(mem_dedupF S _).mpr hmem, by simp [hns]⟩
  have hinv : ∀ b ∈ backup_coins,
      b ∈ (dedupF (backup_coins ++ all_symbols)).filter
        (fun s => (firstStable raw s).isNone) →
      List.lookup b (pass1 raw (dedupF (backup_coins ++ all_symbols)) initTickers []).1
        = none := by
    intro b hbb hbf
    rcases List.mem_filter.mp hbf with ⟨-, hb_isnone⟩
    have hbnone : firstStable raw b = none := by
      cases hfs : firstStable raw b with
      | none => rfl
      | some q => rw [hfs] at hb_isnone; exact absurd hb_isnone (by simp)
    rw [pass1_lookup_none raw hbnone]
    have hb3 : b = "BTC" ∨ b = "ETH" ∨ b = "BNB" := by
      simpa [backup_coins] using hbb
    rcases hb3 with h | h | h <;> subst h <;> decide
  exact pass2_main raw _ _ out (hnd.filter _) hinv hout' S hSf B hB

/-- Witness for C4: XRP has no stable pair in `{BTCUSD: 10, XRPBTC: 3}`; its
first (and only) backup pair is against BTC, and the output resolves
XRP at `3 * 10 = 30`. -/
theorem build_ticker_backup_pair_witness :
    ∃ p pb, rawLookup [("BTCUSD", 10), ("XRPBTC", 3)] ("XRP" ++ "BTC") = some p ∧
      List.lookup "BTC" [("XRP", (30 : ℚ)), ("BTC", 10), ("USDT", 1), ("USD", 1)]
        = some pb ∧
      List.lookup "XRP" [("XRP", (30 : ℚ)), ("BTC", 10), ("USDT", 1), ("USD", 1)]
        = some (p * pb) :=
  build_ticker_backup_pair ["XRP"] [("BTCUSD", 10), ("XRPBTC", 3)] "XRP" "BTC"
    [("XRP", 30), ("BTC", 10), ("USDT", 1), ("USD", 1)]
    (by decide) (by decide) (by decide)
    (by
      have h : (3 : ℚ) * 10 = 30 := by norm_num
      simp [build_ticker, dedupF, pass1, pass2, firstStable, backupFind, rawLookup,
        initTickers, stable_coins, backup_coins, List.findSome?, List.find?,
        List.lookup, h])

/-- C8 counterexample: with raw tickers empty and `all_symbols = ["USDT"]`,
the symbol USDT resolves no price in the direct stable pass and none in the
backup pass, yet it appears in the normalized output (with its seeded price
1) — so the claim as stated fails for the seeded numeraires. -/
theorem build_ticker_seeded_usdt_appears :
    firstStable ([] : Dict) "USDT" = none ∧
    backupFind ([] : Dict) "USDT" = none ∧
    build_ticker ["USDT"] ([] : Dict) = some [("USDT", 1), ("USD", 1)] ∧
    List.lookup "USDT" [("USDT", (1 : ℚ)), ("USD", 1)] = some 1 := by
  refine ⟨by decide, by decide, by decide, by decide⟩

/-- C8 (amended): a symbol other than the seeded numeraires USDT and USD
that resolves no price in the direct stable-pair pass and none in the
backup-asset pass never appears as a key in the normalized output. -/
theorem build_ticker_unresolved_dropped (all_symbols : List String) (raw : Dict)
    (S : String) (out : Dict)
    (hout : build_ticker all_symbols raw = some out)
    (hns : firstStable raw S = none)
    (hnb : backupFind raw S = none)
    (hUSDT : S ≠ "USDT") (hUSD : S ≠ "USD") :
    List.lookup S out = none := by
  have hout' : pass2 raw (pass1 raw (dedupF (backup_coins ++ all_symbols)) initTickers []).2
      (pass1 raw (dedupF (backup_coins ++ all_symbols)) initTickers []).1 = some out := hout
  rw [pass2_lookup_none raw hnb _ _ out hout', pass1_lookup_none raw hns]
  show List.lookup S initTickers = none
  simp [initTickers, List.lookup, beq_eq_false_iff_ne.mpr hUSDT,
    beq_eq_false_iff_ne.mpr hUSD]

/-- Witness for C8 (amended): XRP, requested but priced by neither pass on an
empty raw ticker set, is absent from the output. -/
theorem build_ticker_unresolved_dropped_witness :
    List.lookup "XRP" [("USDT", (1 : ℚ)), ("USD", 1)] = none :=
  build_ticker_unresolved_dropped ["XRP"] [] "XRP" [("USDT", 1), ("USD", 1)]
    (by decide) (by decide) (by decide) (by decide) (by decide)

/-- C9: the backup pass is partial.  On the input `all_symbols = ["XYZ"]`,
raw tickers `{XYZBTC: 2}`, the backup coin BTC has no direct stable pair
(so it is never entered into the tickers dict), while the unresolved symbol
XYZ has a raw pair against BTC; the lookup of BTC's normalized price then
fails with a `KeyError` (modelled as `none`) instead of skipping XYZ. -/
theorem build_ticker_unresolved_backup_keyerror :
    firstStable [("XYZBTC", 2)] "BTC" = none ∧
    backupFind [("XYZBTC", 2)] "XYZ" = some "BTC" ∧
    build_ticker ["XYZ"] [("XYZBTC", 2)] = none := by
  refine ⟨by decide, by decide, by decide⟩

/-! ### Valuation lemmas -/

theorem lookup_append_of_none : ∀ {l1 : Dict} (l2 : Dict) {k : String},
    List.lookup k l1 = none → List.lookup k (l1 ++ l2) = List.lookup k l2
  | [], _, _, _ => rfl
  | (a, v) :: l1, l2, k, h => by
    by_cases hk : k = a
    · subst hk; rw [lookup_cons_self] at h; exact Option.noConfusion h
    · rw [List.cons_append, lookup_cons_ne hk]
      rw [lookup_cons_ne hk] at h
      exact lookup_append_of_none l2 h

theorem lookup_append_of_some : ∀ {l1 : Dict} (l2 : Dict) {k : String} {v : ℚ},
    List.lookup k l1 = some v → List.lookup k (l1 ++ l2) = some v
  | [], _, _, _, h => Option.noConfusion h
  | (a, w) :: l1, l2, k, v, h => by
    by_cases hk : k = a
    · subst hk
      rw [lookup_cons_self] at h
      rw [List.cons_append, lookup_cons_self]
      exact h
    · rw [List.cons_append, lookup_cons_ne hk]
      rw [lookup_cons_ne hk] at h
      exact lookup_append_of_some l2 h

theorem lookup_eq_none_of_not_mem_keys : ∀ {l : Dict} {k : String},
    k ∉ l.map Prod.fst → List.lookup k l = none
  | [], _, _ => rfl
  | (a, v) :: l, k, h => by
    have hk : k ≠ a := fun he => h (by simp [he])
    have hrest : k ∉ l.map Prod.fst := fun he => h (by simp [he])
    rw [lookup_cons_ne hk]
    exact lookup_eq_none_of_not_mem_keys hrest

theorem reverse_lookup_head {k : String} {q : ℚ} {rest : Dict}
    (hk : k ∉ rest.map Prod.fst) :
    List.lookup k (((k, q) :: rest).reverse) = some q := by
  rw [List.reverse_cons]
  have hnone : List.lookup k rest.reverse = none := by
    refine lookup_eq_none_of_not_mem_keys ?_
    rw [List.map_reverse]
    simpa using hk
  rw [lookup_append_of_none _ hnone, lookup_cons_self]

theorem reverse_lookup_tail {k s : String} {q : ℚ} {rest : Dict} (hk : s ≠ k) :
    List.lookup s (((k, q) :: rest).reverse) = List.lookup s rest.reverse := by
  rw [List.reverse_cons]
  cases h : List.lookup s rest.reverse with
  | some v => exact lookup_append_of_some _ h
  | none =>
    rw [lookup_append_of_none _ h]
    exact (lookup_cons_ne hk).trans rfl

theorem map_congr_mem {α β : Type} : ∀ (l : List α) (f g : α → β),
    (∀ a ∈ l, f a = g a) → l.map f = l.map g
  | [], _, _, _ => rfl
  | a :: l, f, g, h => by
    rw [List.map_cons, List.map_cons, h a (List.mem_cons_self a l),
      map_congr_mem l f g (fun x hx => h x (List.mem_cons_of_mem a hx))]

theorem total_usdt_py_foldl (balances tickers : Dict) :
    ∀ (syms : List String) (acc : ℚ),
      syms.foldl
        (fun acc s =>
          match tickers.lookup s with
          | none => acc
          | some p => acc + ((balances.reverse.lookup s).getD 0) * p) acc
      = acc + (syms.map (fun s =>
          match tickers.lookup s with
          | none => 0
          | some p => ((balances.reverse.lookup s).getD 0) * p)).sum := by
  intro syms
  induction syms with
  | nil => intro acc; simp
  | cons s rest ih =>
    intro acc
    rw [List.foldl_cons, ih, List.map_cons, List.sum_cons]
    cases h : tickers.lookup s with
    | none => simp [h]
    | some p => simp [h, add_assoc]

theorem sum_keys_eq_intersect (tickers : Dict) :
    ∀ (balances : Dict), (balances.map Prod.fst).Nodup →
      ((balances.map Prod.fst).map (fun s =>
        match tickers.lookup s with
        | none => 0
        | some p => ((balances.reverse.lookup s).getD 0) * p)).sum
      = intersect_sum balances tickers := by
  intro balances
  induction balances with
  | nil => intro _; simp [intersect_sum]
  | cons a rest ih =>
    obtain ⟨k, q⟩ := a
    intro hnd
    rw [List.map_cons] at hnd ⊢
    rcases List.nodup_cons.mp hnd with ⟨hk_not, hnd_rest⟩
    rw [List.map_cons, List.sum_cons]
    have htail : (rest.map Prod.fst).map (fun s =>
        match tickers.lookup s with
        | none => 0
        | some p => ((((k, q) :: rest).reverse.lookup s).getD 0) * p)
      = (rest.map Prod.fst).map (fun s =>
        match tickers.lookup s with
        | none => 0
        | some p => ((rest.reverse.lookup s).getD 0) * p) := by
      refine map_congr_mem _ _ _ ?_
      intro s hs
      have hsk : s ≠ k := fun he => hk_not (he ▸ hs)
      rw [reverse_lookup_tail hsk]
    rw [htail, ih hnd_rest]
    have hhead : List.lookup k (rest.reverse ++ [(k, q)]) = some q := by
      rw [← List.reverse_cons]
      exact reverse_lookup_head hk_not
    simp only [intersect_sum, List.filterMap_cons]
    cases h : tickers.lookup k with
    | none => simp [h]
    | some p => simp [h, hhead]

/-! ### Claim theorems about the valuation -/

/-- C1: the valuation total is the sum of `balance[s] * price[s]` over
exactly the symbols present in both maps — a symbol without a price
contributes 0 and raises no error — and, in the spec's example, balances
`{BTC: 0.5, USDT: 100}` with raw tickers `{BTCUSDT: 20000}` under the USD
reference give normalized prices `{BTC: 20000, USDT: 1, USD: 1}` and total
`0.5*20000 + 100*1 = 10100`. -/
theorem valuation_total_intersection :
    (∀ (balances tickers : Dict), (balances.map Prod.fst).Nodup →
      total_usdt_py (balances.map Prod.fst) balances tickers
        = intersect_sum balances tickers) ∧
    (get_report "USD" [] [⟨"BTC", 1/2, 0⟩, ⟨"USDT", 100, 0⟩]
        [("BTCUSDT", 20000)] none).map (fun r => (r.total_usdt, r.tickers))
      = some (10100, [("BTC", 20000), ("USDT", 1), ("USD", 1)]) := by
  constructor
  · intro balances tickers hnd
    rw [total_usdt_py, total_usdt_py_foldl, zero_add, sum_keys_eq_intersect _ _ hnd]
  · have hsw1 : startsWithLD "BTC" = false := by decide
    have hsw2 : startsWithLD "USDT" = false := by decide
    have h1 : ((1 : ℚ)/2 + 0) = 1/2 := by norm_num
    have h2 : ((100 : ℚ) + 0) = 100 := by norm_num
    have hne1 : ((1 : ℚ)/2 + 0 ≠ 0) := by norm_num
    have hne2 : ((100 : ℚ) + 0 ≠ 0) := by norm_num
    simp [get_report, attach_currency, hsw1, hsw2, hne1, hne2, h1, h2, dedupF,
      build_ticker, pass1, pass2, firstStable, backupFind, rawLookup, initTickers,
      stable_coins, backup_coins, List.findSome?, List.find?, List.lookup,
      total_usdt_py]
    norm_num

/-- Witness for C1's general part, instantiated at the example's balance and
price maps. -/
theorem valuation_total_intersection_witness :
    total_usdt_py ([("BTC", (1 : ℚ)/2), ("USDT", 100)].map Prod.fst)
        [("BTC", (1 : ℚ)/2), ("USDT", 100)]
        [("BTC", 20000), ("USDT", 1), ("USD", 1)]
      = intersect_sum [("BTC", (1 : ℚ)/2), ("USDT", 100)]
        [("BTC", 20000), ("USDT", 1), ("USD", 1)] :=
  valuation_total_intersection.1 _ _ (by decide)

/-! ### Claim theorems about the currency lookup, the snapshot store and the
chart renderer -/

/-- C5 counterexample: the claim ties the external currency lookup to
"neither USD nor USD-pegged", but the code tests membership in
`("USD", "EUR")`.  With the USD-pegged currency USDT configured, a failing
external lookup still fails the whole snapshot (so the lookup is performed),
while with EUR configured — neither USD nor USD-pegged — the snapshot
succeeds although the external lookup fails (so no lookup is performed). -/
theorem get_report_currency_counterexample :
    get_report "USDT" [] [] [] none = none ∧
    (get_report "EUR" [] [] [] none).isSome = true := by
  refine ⟨by decide, by decide⟩

/-- C5 (amended): the external currency-conversion lookup is performed during
a snapshot exactly when the configured currency is neither USD nor EUR (EUR
is priced through the exchange's own EUR pairs instead); a failure of that
lookup is not caught within the pipeline and fails the whole snapshot, and
when it succeeds its rate reaches the report as `1 / rate`. -/
theorem get_report_currency_lookup (currency : String) (coin_list : List String)
    (account_balances : List RawBalance) (tickers_raw : Dict) :
    (currency ≠ "USD" → currency ≠ "EUR" →
      get_report currency coin_list account_balances tickers_raw none = none) ∧
    (currency ≠ "USD" → currency ≠ "EUR" → ∀ (q : ℚ) (rep : Report),
      get_report currency coin_list account_balances tickers_raw (some q) = some rep →
      rep.tickers.lookup currency = some (1 / q)) ∧
    ((currency = "USD" ∨ currency = "EUR") → ∀ (o1 o2 : Option ℚ),
      get_report currency coin_list account_balances tickers_raw o1
        = get_report currency coin_list account_balances tickers_raw o2) := by
  refine ⟨?_, ?_, ?_⟩
  · intro hUSD hEUR
    have hac : ∀ t0 : Dict, attach_currency currency none t0 = none := by
      intro t0
      simp [attach_currency, hUSD, hEUR]
    simp only [get_report, hac]
    split
    · rfl
    · rfl
  · intro hUSD hEUR q rep h
    have hac : ∀ t0 : Dict, attach_currency currency (some q) t0
        = some ((currency, 1 / q) :: t0) := by
      intro t0
      simp [attach_currency, hUSD, hEUR]
    simp only [get_report, hac] at h
    split at h
    · exact Option.noConfusion h
    · have hrep := Option.some.inj h
      rw [← hrep]
      exact lookup_cons_self
  · intro hc o1 o2
    have hac : ∀ (o : Option ℚ) (t0 : Dict), attach_currency currency o t0 = some t0 := by
      intro o t0
      simp [attach_currency, hc]
    simp only [get_report, hac]

/-- Witness for C5 (amended), applied with the non-USD non-EUR currency JPY:
a failed lookup fails the snapshot, and for USD two different lookup outcomes
give identical snapshots. -/
theorem get_report_currency_lookup_witness :
    get_report "JPY" [] [] [] none = none ∧
    get_report "USD" [] [] [] none = get_report "USD" [] [] [] (some 2) :=
  ⟨(get_report_currency_lookup "JPY" [] [] []).1 (by decide) (by decide),
    (get_report_currency_lookup "USD" [] [] []).2.2 (Or.inl rfl) none (some 2)⟩

/-- C2: appending a snapshot record to an existing stored history `H` stamps
it with the append-call time and rewrites the whole store; the resulting
history is one longer than `H`, its last element is the stamped record, and
the returned in-memory history equals what a subsequent load of the rewritten
store returns. -/
theorem snapshot_store_append (H : List Snapshot) (r : Report) (now : ℕ) :
    (save_report now r (get_previous_reports (some H))).length = H.length + 1 ∧
    (save_report now r (get_previous_reports (some H))).getLast?
      = some { report := r, time := now } ∧
    get_previous_reports (save_report_store now r (get_previous_reports (some H)))
      = save_report now r (get_previous_reports (some H)) := by
  refine ⟨by simp [save_report, get_previous_reports], ?_, rfl⟩
  simp [save_report, get_previous_reports]

/-- C6: for a chart series whose first value `v0` is nonzero, the relative
transform succeeds and maps the value at every index `i` to
`(v[i]/v0 - 1) * 100`, and the first transformed point is exactly 0. -/
theorem relative_transform_spec (Y : List ℚ) (v0 : ℚ)
    (h0 : Y.head? = some v0) (hne : v0 ≠ 0) :
    ∃ Z, relative_transform Y = some Z ∧ Z.head? = some 0 ∧
      ∀ i : ℕ, Z[i]? = (Y[i]?).map (fun v => (v / v0 - 1) * 100) := by
  cases Y with
  | nil => exact Option.noConfusion h0
  | cons a Ytail =>
    have ha : a = v0 := by simpa using h0
    subst ha
    refine ⟨(a :: Ytail).map (fun v => (v / a - 1) * 100), rfl, ?_, ?_⟩
    · simp [div_self hne]
    · intro i
      exact List.getElem?_map _ _ i

/-- Witness for C6 on the series `[2, 4]` with nonzero first value 2. -/
theorem relative_transform_spec_witness :
    (2 : ℚ) ≠ 0 ∧ ∃ Z, relative_transform [2, 4] = some Z ∧ Z.head? = some 0 ∧
      ∀ i : ℕ, Z[i]? = (([2, 4] : List ℚ)[i]?).map (fun v => (v / 2 - 1) * 100) :=
  ⟨by norm_num, relative_transform_spec [2, 4] 2 rfl (by norm_num)⟩

/-- C7: with a nonzero lookback window `days`, a snapshot contributes a chart
point only if its timestamp is at least `now - days*86400`; with `days = 0`
the age filter discards nothing; and concretely, with `days = 7` and `now`
at day 10, a snapshot from day 2 (8 days old) is excluded while one from
day 9 (1 day old) is included. -/
theorem age_filter_spec :
    (∀ (symbol graph_type ref_currency : String) (now days : ℕ) (rep : Snapshot),
      days ≠ 0 →
      (point_of symbol graph_type ref_currency now days rep).isSome = true →
      (now : ℤ) - days * 86400 ≤ (rep.time : ℤ)) ∧
    (∀ now t : ℕ, age_keep now 0 t = true) ∧
    point_of "BTC" "amount" "USD" (10 * 86400) 7 repOld8d = none ∧
    point_of "BTC" "amount" "USD" (10 * 86400) 7 repNew1d = some (100 / 5) := by
  refine ⟨?_, ?_, by decide, by rfl⟩
  · intro symbol graph_type ref_currency now days rep hdays hsome
    by_cases hk : age_keep now days rep.time
    · have hle : min_timestamp now days ≤ (rep.time : ℤ) := of_decide_eq_true hk
      rw [min_timestamp, if_neg hdays] at hle
      have h24 : (days : ℤ) * 24 * 60 * 60 = days * 86400 := by ring
      rw [← h24]
      linarith [hle]
    · rw [point_of, if_neg hk] at hsome
      exact Bool.noConfusion hsome
  · intro now t
    simp [age_keep, min_timestamp]

/-- Witness for C7's windowed-inclusion bound at `days = 7`, `now = 10*86400`
and the 1-day-old snapshot. -/
theorem age_filter_spec_witness :
    (7 : ℕ) ≠ 0 ∧
    (point_of "BTC" "amount" "USD" (10 * 86400) 7 repNew1d).isSome = true ∧
    ((10 * 86400 : ℕ) : ℤ) - 7 * 86400 ≤ (repNew1d.time : ℤ) :=
  ⟨by decide, by decide,
    age_filter_spec.1 "BTC" "amount" "USD" (10 * 86400) 7 repNew1d
      (by decide) (by decide)⟩

/-- C10: in relative mode, a requested symbol whose filtered series is empty
makes the renderer fail on the series' first element (here: a non-empty
history with no ETH price), rather than skipping the symbol; and the renderer
is total whenever every requested symbol contributes at least one point. -/
theorem graph_report_empty_series :
    graph_report exampleReports ["ETH"] true 0 "amount" "USD" 1000 = none ∧
    (∀ (reports : List Snapshot) (symbols : List String) (relative : Bool)
       (days : ℕ) (graph_type ref_currency : String) (now : ℕ),
      (∀ s ∈ symbols, seriesY reports s graph_type ref_currency now days ≠ []) →
      (graph_report reports symbols relative days graph_type ref_currency now).isSome
        = true) := by
  constructor
  · decide
  · intro reports symbols relative days graph_type ref_currency now
    induction symbols with
    | nil => intro _; rfl
    | cons s rest ih =>
      intro h
      have hs : seriesY reports s graph_type ref_currency now days ≠ [] :=
        h s (List.mem_cons_self s rest)
      have ihr := ih (fun x hx => h x (List.mem_cons_of_mem _ hx))
      cases hY : seriesY reports s graph_type ref_currency now days with
      | nil => exact absurd hY hs
      | cons v0 Ytail =>
        cases hg : graph_report reports rest relative days graph_type ref_currency now with
        | none => rw [hg] at ihr; exact Bool.noConfusion ihr
        | some pr =>
          cases relative <;> simp [graph_report, hY, hg, relative_transform]

/-- Witness for C10's totality direction: requesting only BTC against
`exampleReports` gives a nonempty series for every requested symbol, so the
renderer succeeds. -/
theorem graph_report_empty_series_witness :
    (graph_report exampleReports ["BTC"] true 0 "amount" "USD" 1000).isSome = true :=
  graph_report_empty_series.2 exampleReports ["BTC"] true 0 "amount" "USD" 1000
    (by decide)

end BTBReport
